import Mathlib

/-!
Verification of the gophertown realtime server and client transport.

The definitions below are a shallow embedding of `src/server/server.js`
(WebSocket message handling: join / move / chat / update / close, the
broadcast batcher, the player-id generator) and of the client transport
`GameWebSocket` (reconnection backoff).  JavaScript `Map` objects are
embedded as insertion-ordered association lists, JavaScript numbers as
`Int`, absent (`undefined`) fields as `Option`, and JavaScript string
truthiness (`""` is falsy) is modelled explicitly where the source
relies on it.
-/

namespace Gophertown

/-- Map dimensions, from `server.js`: `const MAP_WIDTH = 1536`. -/
def MAP_WIDTH : Int := 1536

/-- `const MAP_HEIGHT = 1024`. -/
def MAP_HEIGHT : Int := 1024

/-- `const UPDATE_RATE_LIMIT = 16` (minimum ms between updates). -/
def UPDATE_RATE_LIMIT : Int := 16

/-- A position `{x, y}` in map-pixel space. -/
structure Pos where
  x : Int
  y : Int
deriving Repr, DecidableEq

/-- The server's stored per-player record (`playerData` in `server.js`).
`direction` and `isMoving` are `Option` because a `player_move` stores
`msg.direction` / `msg.isMoving` verbatim, which may be absent. -/
structure PlayerData where
  id : String
  name : String
  pos : Pos
  direction : Option String
  isMoving : Option Bool
  color : Option String
deriving Repr, DecidableEq

/-- JavaScript `a || b` for strings: `""` is falsy. -/
def jsOr (a : Option String) (b : String) : String :=
  match a with
  | some s => if s = "" then b else s
  | none => b

/-- Payload of a client `player_join` (`msg.player`). -/
structure JoinPlayer where
  name : Option String
  pos : Option Pos
  direction : Option String
  isMoving : Option Bool
  color : Option String
deriving Repr, DecidableEq

/-- Payload of a client `player_move` message. -/
structure MoveMsg where
  playerId : Option String
  dx : Option Int
  dy : Option Int
  pos : Option Pos
  direction : Option String
  isMoving : Option Bool
  seq : Option Int
deriving Repr, DecidableEq

/-- Payload of a client `player_update` (`msg.player`).  `color` is
doubly optional: the outer layer is `!== undefined`, the inner layer is
the stored value (JS `null` maps to `none`). -/
structure UpdatePlayer where
  id : Option String
  name : Option String
  color : Option (Option String)
  direction : Option String
  isMoving : Option Bool
deriving Repr, DecidableEq

/-- Client-to-server messages dispatched by the `switch (msg.type)`. -/
inductive ClientMsg where
  | player_join (player : JoinPlayer)
  | player_move (m : MoveMsg)
  | chat (message : String)
  | player_update (player : UpdatePlayer)
deriving Repr, DecidableEq

/-- Server-to-client messages. -/
inductive ServerMsg where
  | player_id_assigned (playerId : String) (player : PlayerData)
  | player_join (player : PlayerData)
  | players_sync (players : List PlayerData)
  | player_move (playerId : String) (pos : Pos) (direction : Option String)
      (isMoving : Option Bool) (seq : Option Int) (timestamp : Int)
  | chat (playerId : String) (playerName : String) (message : String)
  | player_update (player : PlayerData)
  | player_leave (playerId : String)
  | batch (updates : List ServerMsg)
deriving Repr

/-! ### Association lists: the embedding of JavaScript `Map` -/

/-- `Map.get` on an insertion-ordered association list. -/
def alGet {κ α : Type} [DecidableEq κ] (m : List (κ × α)) (k : κ) : Option α :=
  match m with
  | [] => none
  | (k', v) :: rest => if k' = k then some v else alGet rest k

/-- `Map.set`: update in place if present (JS keeps insertion order),
append otherwise. -/
def alSet {κ α : Type} [DecidableEq κ] (m : List (κ × α)) (k : κ) (v : α) :
    List (κ × α) :=
  match m with
  | [] => [(k, v)]
  | (k', v') :: rest =>
    if k' = k then (k, v) :: rest else (k', v') :: alSet rest k v

/-- `Map.delete`. -/
def alErase {κ α : Type} [DecidableEq κ] (m : List (κ × α)) (k : κ) :
    List (κ × α) :=
  m.filter (fun kv => kv.1 ≠ k)

/-! ### Server state and the message handler -/

/-- Mutable server registries: `players`, `wsToPlayerId` (which also
stands for the per-connection `playerId` closure variable — the two are
always assigned together), and `lastUpdateTime`.  Connections are
identified by naturals. -/
structure ServerState where
  players : List (String × PlayerData)
  assigned : List (Nat × String)
  lastUpdateTime : List (String × Int)
deriving Repr, DecidableEq

/-- The empty registries at server start. -/
def initialState : ServerState := ⟨[], [], []⟩

/-- Per-destination pending movement queues (`movementUpdates`). -/
abbrev Queues := List (Nat × List ServerMsg)

/-- Whether a message takes the batched path in `broadcast`
(`message.type === 'player_move'`). -/
def isMovementMsg : ServerMsg → Bool
  | .player_move _ _ _ _ _ _ => true
  | _ => false

/-- `broadcast(message, excludeWs)` from `server.js`: movement messages
are appended to each eligible destination's pending queue (no immediate
write); all other messages are written immediately to every open client
except the sender.  `clients` is the list of open connections
(`wss.clients` with `readyState === OPEN`). -/
def broadcast (clients : List Nat) (excl : Nat) (m : ServerMsg) (q : Queues) :
    Queues × List (Nat × ServerMsg) :=
  if isMovementMsg m then
    (clients.foldl
      (fun acc c =>
        if c ≠ excl then alSet acc c ((alGet acc c).getD [] ++ [m]) else acc)
      q, [])
  else
    (q, (clients.filter (fun c => c ≠ excl)).map (fun c => (c, m)))

/-- The per-connection body of the batch-timer callback: an open
connection with one pending update gets it plain, with several gets a
`batch` envelope of the ordered list; empty or closed queues emit
nothing. -/
def flushEntry (clients : List Nat) (cu : Nat × List ServerMsg)
    (acc : List (Nat × ServerMsg)) : List (Nat × ServerMsg) :=
  if cu.1 ∈ clients then
    match cu.2 with
    | [] => acc
    | [u] => (cu.1, u) :: acc
    | us => (cu.1, .batch us) :: acc
  else acc

/-- One firing of the batching timer: for each connection with a
non-empty queue that is still open, flush the queue as the single
pending message (if exactly one) or a `batch` envelope (if several),
then clear it.  Queues of closed connections are left untouched. -/
def flushTick (clients : List Nat) (q : Queues) :
    List (Nat × ServerMsg) × Queues :=
  (q.foldr (flushEntry clients) [],
   q.map (fun cu =>
     if cu.1 ∈ clients ∧ cu.2.isEmpty = false then (cu.1, ([] : List ServerMsg)) else cu))

/-- Result of handling one event: new registries, new batcher queues,
and the immediate writes performed (destination, message), in order. -/
structure StepResult where
  state : ServerState
  queues : Queues
  sends : List (Nat × ServerMsg)
deriving Repr

/-- The `playerData` object built in the `player_join` case:
name defaults to `'Player'`, position to map centre, direction to
`'front'`, `isMoving` to `false`; an empty-string color is dropped. -/
def joinPlayerData (j : JoinPlayer) (pid : String) : PlayerData :=
  { id := pid
    name := jsOr j.name "Player"
    pos := j.pos.getD ⟨MAP_WIDTH / 2, MAP_HEIGHT / 2⟩
    direction := some (jsOr j.direction "front")
    isMoving := some (j.isMoving.getD false)
    color :=
      match j.color with
      | some c => if c = "" then none else some c
      | none => none }

/-- The `player_join` case of the message handler. -/
def handleJoin (clients : List Nat) (st : ServerState) (q : Queues)
    (conn : Nat) (j : JoinPlayer) (freshId : String) : StepResult :=
  let pid := (alGet st.assigned conn).getD freshId
  let assigned' :=
    match alGet st.assigned conn with
    | some _ => st.assigned
    | none => alSet st.assigned conn freshId
  let pd := joinPlayerData j pid
  let players' := alSet st.players pid pd
  let qb := broadcast clients conn (.player_join pd) q
  let others := (players'.map (fun kv => kv.2)).filter (fun p => p.id ≠ pid)
  { state := { st with players := players', assigned := assigned' }
    queues := qb.1
    sends := [(conn, .player_id_assigned pid pd)] ++ qb.2
               ++ [(conn, .players_sync others)] }

/-- `Math.max(0, Math.min(MAP_WIDTH, v))` — note the upper clamp is
inclusive of `MAP_WIDTH` itself. -/
def clampX (v : Int) : Int := max 0 (min MAP_WIDTH v)

/-- `Math.max(0, Math.min(MAP_HEIGHT, v))`. -/
def clampY (v : Int) : Int := max 0 (min MAP_HEIGHT v)

/-- The ownership test `msg.playerId && msg.playerId !== movePlayerId`:
JS truthiness means an empty-string `playerId` does NOT trigger it. -/
def ownershipViolation (claimed : Option String) (pid : String) : Bool :=
  match claimed with
  | some s => s != "" && s != pid
  | none => false

/-- The `player_move` case.  Mirrors the source checks in order:
registered-player guard, `msg.playerId` ownership check, rate limit,
then delta/absolute clamping. -/
def handleMove (clients : List Nat) (st : ServerState) (q : Queues)
    (conn : Nat) (m : MoveMsg) (now : Int) : StepResult :=
  match alGet st.assigned conn with
  | none => ⟨st, q, []⟩
  | some movePlayerId =>
    match alGet st.players movePlayerId with
    | none => ⟨st, q, []⟩
    | some currentPlayer =>
      if ownershipViolation m.playerId movePlayerId then ⟨st, q, []⟩
      else
        let lastUpdate := (alGet st.lastUpdateTime movePlayerId).getD 0
        if now - lastUpdate < UPDATE_RATE_LIMIT then ⟨st, q, []⟩
        else
          let st1 := { st with
            lastUpdateTime := alSet st.lastUpdateTime movePlayerId now }
          let validPos? : Option Pos :=
            match m.dx, m.dy with
            | some dx, some dy =>
              some ⟨clampX (currentPlayer.pos.x + dx),
                    clampY (currentPlayer.pos.y + dy)⟩
            | _, _ =>
              match m.pos with
              | some p => some ⟨clampX p.x, clampY p.y⟩
              | none => none
          match validPos? with
          | none => ⟨st1, q, []⟩
          | some validPos =>
            let updatedPlayer := { currentPlayer with
              pos := validPos
              direction := m.direction
              isMoving := m.isMoving }
            let st2 := { st1 with
              players := alSet st1.players movePlayerId updatedPlayer }
            let qb := broadcast clients conn
              (.player_move movePlayerId validPos m.direction m.isMoving m.seq now) q
            ⟨st2, qb.1, qb.2⟩

/-- The `chat` case: stateless relay attributed via the registry. -/
def handleChat (clients : List Nat) (st : ServerState) (q : Queues)
    (conn : Nat) (message : String) : StepResult :=
  match alGet st.assigned conn with
  | none => ⟨st, q, []⟩
  | some chatPlayerId =>
    match alGet st.players chatPlayerId with
    | none => ⟨st, q, []⟩
    | some chatPlayer =>
      let qb := broadcast clients conn
        (.chat chatPlayerId chatPlayer.name message) q
      ⟨st, qb.1, qb.2⟩

/-- The `player_update` case: profile-only mutation, position untouched. -/
def handleUpdate (clients : List Nat) (st : ServerState) (q : Queues)
    (conn : Nat) (u : UpdatePlayer) : StepResult :=
  match alGet st.assigned conn with
  | none => ⟨st, q, []⟩
  | some updatePlayerId =>
    match alGet st.players updatePlayerId with
    | none => ⟨st, q, []⟩
    | some currentPlayer =>
      if ownershipViolation u.id updatePlayerId then ⟨st, q, []⟩
      else
        let updatedPlayer := { currentPlayer with
          name := jsOr u.name currentPlayer.name
          color := match u.color with
            | some c => c
            | none => currentPlayer.color
          direction := match u.direction with
            | some d => if d = "" then currentPlayer.direction else some d
            | none => currentPlayer.direction
          isMoving := match u.isMoving with
            | some b => some b
            | none => currentPlayer.isMoving }
        let st1 := { st with
          players := alSet st.players updatePlayerId updatedPlayer }
        let qb := broadcast clients conn (.player_update updatedPlayer) q
        ⟨st1, qb.1, qb.2⟩

/-- Dispatch on `msg.type`, as the `switch` in `ws.on('message')`.
`now` is `Date.now()` at receipt; `freshId` is the value
`generatePlayerId()` would return if called during this event. -/
def handleMessage (clients : List Nat) (st : ServerState) (q : Queues)
    (conn : Nat) (msg : ClientMsg) (now : Int) (freshId : String) : StepResult :=
  match msg with
  | .player_join j => handleJoin clients st q conn j freshId
  | .player_move m => handleMove clients st q conn m now
  | .chat message => handleChat clients st q conn message
  | .player_update u => handleUpdate clients st q conn u

/-- The `ws.on('close')` handler: if the connection had a player, remove
it from both registries (note: `lastUpdateTime` is not cleared) and
broadcast `player_leave`; otherwise nothing happens. -/
def handleClose (clients : List Nat) (st : ServerState) (q : Queues)
    (conn : Nat) : StepResult :=
  match alGet st.assigned conn with
  | none => ⟨st, q, []⟩
  | some leavingPlayerId =>
    let st1 := { st with
      players := alErase st.players leavingPlayerId
      assigned := alErase st.assigned conn }
    let qb := broadcast clients conn (.player_leave leavingPlayerId) q
    ⟨st1, qb.1, qb.2⟩

/-! ### Event traces -/

/-- One server event: a parsed client message or a connection close.
Each carries the wall-clock time at which the handler ran, the fresh id
the generator would produce, and the set of open connections. -/
inductive Event where
  | emsg (conn : Nat) (m : ClientMsg) (now : Int) (freshId : String)
      (clients : List Nat)
  | eclose (conn : Nat) (now : Int) (clients : List Nat)
deriving Repr, DecidableEq

/-- The wall-clock time of an event. -/
def Event.time : Event → Int
  | .emsg _ _ now _ _ => now
  | .eclose _ now _ => now

/-- Apply one event to the registries (batcher queues and sends
projected away). -/
def stepState (st : ServerState) (e : Event) : ServerState :=
  match e with
  | .emsg conn m now freshId clients =>
    (handleMessage clients st [] conn m now freshId).state
  | .eclose conn _ clients => (handleClose clients st [] conn).state

/-- Run a trace of events from a starting state. -/
def runState (st : ServerState) (trace : List Event) : ServerState :=
  trace.foldl stepState st

/-- The half-open bound the spec asserts:
`[0, mapWidth) × [0, mapHeight)`. -/
def inBoundsSpec (p : Pos) : Prop :=
  0 ≤ p.x ∧ p.x < MAP_WIDTH ∧ 0 ≤ p.y ∧ p.y < MAP_HEIGHT

/-- The closed bound the code actually maintains for clamped stores:
`Math.min(MAP_WIDTH, ·)` lets `x = MAP_WIDTH` through. -/
def inBoundsClosed (p : Pos) : Prop :=
  0 ≤ p.x ∧ p.x ≤ MAP_WIDTH ∧ 0 ≤ p.y ∧ p.y ≤ MAP_HEIGHT

instance (p : Pos) : Decidable (inBoundsSpec p) :=
  inferInstanceAs (Decidable
    (0 ≤ p.x ∧ p.x < MAP_WIDTH ∧ 0 ≤ p.y ∧ p.y < MAP_HEIGHT))

instance (p : Pos) : Decidable (inBoundsClosed p) :=
  inferInstanceAs (Decidable
    (0 ≤ p.x ∧ p.x ≤ MAP_WIDTH ∧ 0 ≤ p.y ∧ p.y ≤ MAP_HEIGHT))

/-- An event proposes no out-of-bounds join position (join positions
are stored unclamped, so this is the hypothesis under which the
position invariant can hold at all). -/
def joinPosOk : Event → Bool
  | .emsg _ (.player_join j) _ _ _ =>
    match j.pos with
    | some p => decide (inBoundsClosed p)
    | none => true
  | _ => true

/-- Every stored position satisfies the closed bound. -/
def stateInBounds (st : ServerState) : Prop :=
  ∀ pid pd, alGet st.players pid = some pd → inBoundsClosed pd.pos

/-- All guards of the `player_move` case pass for player `p`: the
update is applied to the registry (and `lastUpdateTime p` is set). -/
def moveAppliedBy (st : ServerState) (conn : Nat) (m : MoveMsg) (now : Int)
    (p : String) : Bool :=
  (alGet st.assigned conn == some p) &&
  (alGet st.players p).isSome &&
  !(ownershipViolation m.playerId p) &&
  decide (UPDATE_RATE_LIMIT ≤ now - (alGet st.lastUpdateTime p).getD 0) &&
  (m.dx.isSome && m.dy.isSome || m.pos.isSome)

/-! ### Concrete scenario inputs used to instantiate the theorems -/

/-- A plain join request carrying only a name. -/
def exampleJoin : ClientMsg :=
  ClientMsg.player_join ⟨some "Alice", none, none, none, none⟩

/-- State after one client (connection 0) joined and was assigned
id `"A"`. -/
def exSt : ServerState :=
  (handleMessage [0] initialState [] 0 exampleJoin 0 "A").state

/-- A move whose `playerId` field is present but the empty string. -/
def c2_badMove : MoveMsg :=
  { playerId := some "", dx := none, dy := none, pos := some ⟨10, 10⟩,
    direction := none, isMoving := none, seq := none }

/-- The spec's scenario 3: an absolute move to `(9999, 9999)`. -/
def c3_move : MoveMsg :=
  { playerId := none, dx := none, dy := none, pos := some ⟨9999, 9999⟩,
    direction := some "front", isMoving := some false, seq := none }

/-- A join proposing a far out-of-bounds position. -/
def c1_badTrace : List Event :=
  [Event.emsg 0 (.player_join ⟨none, some ⟨9999, 9999⟩, none, none, none⟩) 0 "A" [0]]

/-- A second join on the already-identified connection 0, with a new
name. -/
def c5_secondJoin : ClientMsg :=
  ClientMsg.player_join ⟨some "Bob", none, none, none, none⟩

/-- A well-behaved trace: a join with no proposed position, then a huge
absolute move (which the server clamps). -/
def c1_goodTrace : List Event :=
  [Event.emsg 0 (.player_join ⟨some "Alice", none, none, none, none⟩) 0 "A" [0],
   Event.emsg 0 (.player_move c3_move) 100 "" [0]]

/-! ### The player-id generator

`generatePlayerId()` returns
`` `player_${Date.now()}_${r1}_${r2}` `` where `r1`, `r2` are
`Math.random().toString(36).substr(2, 9)` draws.  We model the
time and the two random draws as inputs. -/

/-- `generatePlayerId`, as a function of the observed clock value and
the two random base-36 strings. -/
def generatePlayerId (t : Nat) (r1 r2 : String) : String :=
  "player_" ++ toString t ++ "_" ++ r1 ++ "_" ++ r2

/-- The decimal digit characters of `n`, most significant first:
a recursive characterization of core's `Nat.toDigitsCore`. -/
def repChars (n : Nat) : List Char :=
  if h : n / 10 = 0 then [Nat.digitChar (n % 10)]
  else repChars (n / 10) ++ [Nat.digitChar (n % 10)]
termination_by n
decreasing_by
  exact Nat.div_lt_self (Nat.pos_of_ne_zero (fun hn => h (by simp [hn]))) (by norm_num)

/-! ### The client transport (`GameWebSocket` in the client source) -/

/-- Reconnection-relevant fields of `GameWebSocket`. -/
structure GameWebSocket where
  reconnectAttempts : Nat
  maxReconnectAttempts : Nat
  reconnectDelay : Nat
deriving Repr, DecidableEq

/-- Field initializers from the class body:
`reconnectAttempts = 0`, `maxReconnectAttempts = 5`,
`reconnectDelay = 1000`. -/
def GameWebSocket.init : GameWebSocket :=
  { reconnectAttempts := 0, maxReconnectAttempts := 5, reconnectDelay := 1000 }

/-- `attemptReconnect()`: if under the cap, increment the attempt
counter and schedule a `connect()` after `reconnectDelay *
reconnectAttempts` ms (returned as `some delay`); otherwise give up
(`none`). -/
def attemptReconnect (s : GameWebSocket) : GameWebSocket × Option Nat :=
  if s.reconnectAttempts < s.maxReconnectAttempts then
    let attempts := s.reconnectAttempts + 1
    ({ s with reconnectAttempts := attempts }, some (s.reconnectDelay * attempts))
  else (s, none)

/-- The `ws.onclose` handler: reconnect only when the close code is not
1000 (the clean close). -/
def onCloseHandler (s : GameWebSocket) (code : Nat) : GameWebSocket × Option Nat :=
  if code ≠ 1000 then attemptReconnect s else (s, none)

/-- The `ws.onopen` handler resets the attempt counter. -/
def onOpenHandler (s : GameWebSocket) : GameWebSocket :=
  { s with reconnectAttempts := 0 }

/-- The number of reconnects scheduled over a sequence of close events
(no successful open in between), with the schedule delays collected. -/
def runCloses (s : GameWebSocket) (codes : List Nat) : GameWebSocket × List Nat :=
  match codes with
  | [] => (s, [])
  | c :: rest =>
    let r1 := onCloseHandler s c
    let r2 := runCloses r1.1 rest
    (r2.1, r1.2.toList ++ r2.2)

/-! ### Lemmas about the map embedding -/

theorem alGet_alSet_self {κ α : Type} [DecidableEq κ]
    (m : List (κ × α)) (k : κ) (v : α) : alGet (alSet m k v) k = some v := by
  induction m with
  | nil => simp [alSet, alGet]
  | cons kv rest ih =>
    by_cases h : kv.1 = k
    · simp [alSet, alGet, h]
    · simpa [alSet, alGet, h] using ih

theorem alGet_alSet_ne {κ α : Type} [DecidableEq κ]
    (m : List (κ × α)) (k k' : κ) (v : α) (h : k ≠ k') :
    alGet (alSet m k v) k' = alGet m k' := by
  induction m with
  | nil => simp [alSet, alGet, h]
  | cons kv rest ih =>
    by_cases hk : kv.1 = k
    · simp [alSet, alGet, hk, h]
    · by_cases hk' : kv.1 = k'
      · simp [alSet, alGet, hk, hk', Ne.symm h]
      · simpa [alSet, alGet, hk, hk'] using ih

theorem alSet_append_of_not_mem {κ α : Type} [DecidableEq κ]
    (m : List (κ × α)) (k : κ) (v : α) (h : alGet m k = none) :
    alSet m k v = m ++ [(k, v)] := by
  induction m with
  | nil => rfl
  | cons kv rest ih =>
    by_cases hk : kv.1 = k
    · simp [alGet, hk] at h
    · simp only [alGet, hk, if_neg hk, if_false] at h ⊢
      rw [alSet]
      simp [hk, ih h]

/-! ### Lemmas about decimal representation and the id generator -/

theorem toDigitsCore_eq_repChars (f : Nat) :
    ∀ n l, n < f → Nat.toDigitsCore 10 f n l = repChars n ++ l := by
  induction f with
  | zero => intro n l hn; omega
  | succ f ih =>
    intro n l hn
    rw [Nat.toDigitsCore]
    by_cases h : n / 10 = 0
    · simp [h, repChars]
    · have hlt : n / 10 < f := by
        have h1 : n / 10 < n :=
          Nat.div_lt_self (Nat.pos_of_ne_zero (fun hz => h (by simp [hz]))) (by norm_num)
        omega
      simp only [h, if_false]
      rw [ih (n / 10) (Nat.digitChar (n % 10) :: l) hlt]
      conv_rhs => rw [repChars, dif_neg h]
      simp

theorem repr_data_eq_repChars (n : Nat) : (Nat.repr n).data = repChars n := by
  show (Nat.toDigits 10 n).asString.data = repChars n
  rw [Nat.toDigits, toDigitsCore_eq_repChars (n + 1) n [] (Nat.lt_succ_self n)]
  simp [List.asString]

theorem digitChar_inj_lt (a b : Nat) (ha : a < 10) (hb : b < 10)
    (h : Nat.digitChar a = Nat.digitChar b) : a = b := by
  have : ∀ x < 10, ∀ y < 10, Nat.digitChar x = Nat.digitChar y → x = y := by decide
  exact this a ha b hb h

theorem repChars_ne_nil (n : Nat) : repChars n ≠ [] := by
  rw [repChars]
  by_cases h : n / 10 = 0 <;> simp [h]

theorem repChars_injective : ∀ m n, repChars m = repChars n → m = n := by
  intro m
  induction m using Nat.strong_induction_on with
  | _ m ih =>
    intro n h
    by_cases hm : m / 10 = 0 <;> by_cases hn : n / 10 = 0
    · rw [repChars, dif_pos hm, repChars, dif_pos hn] at h
      simp only [List.cons.injEq, and_true] at h
      have := digitChar_inj_lt (m % 10) (n % 10)
        (Nat.mod_lt _ (by norm_num)) (Nat.mod_lt _ (by norm_num)) h
      omega
    · rw [repChars, dif_pos hm, repChars, dif_neg hn] at h
      rcases hrc : repChars (n / 10) with _ | ⟨a, l⟩
      · exact absurd hrc (repChars_ne_nil _)
      · rw [hrc] at h
        simp at h
    · rw [repChars, dif_neg hm] at h
      nth_rewrite 2 [repChars] at h
      rw [dif_pos hn] at h
      rcases hrc : repChars (m / 10) with _ | ⟨a, l⟩
      · exact absurd hrc (repChars_ne_nil _)
      · rw [hrc] at h
        simp at h
    · rw [repChars, dif_neg hm] at h
      nth_rewrite 2 [repChars] at h
      rw [dif_neg hn] at h
      have hparts := List.append_inj' h (by simp)
      have h2 : m % 10 = n % 10 := by
        have hsing := hparts.2
        simp only [List.cons.injEq, and_true] at hsing
        exact digitChar_inj_lt _ _ (Nat.mod_lt _ (by norm_num))
          (Nat.mod_lt _ (by norm_num)) hsing
      have hmpos : 0 < m := Nat.pos_of_ne_zero (fun hz => hm (by simp [hz]))
      have hdiv : m / 10 = n / 10 :=
        ih (m / 10) (Nat.div_lt_self hmpos (by norm_num)) (n / 10) hparts.1
      omega

theorem repChars_no_underscore (n : Nat) : ('_' : Char) ∉ repChars n := by
  induction n using Nat.strong_induction_on with
  | _ n ih =>
    have hd : ∀ x < 10, Nat.digitChar x ≠ '_' := by decide
    by_cases h : n / 10 = 0
    · rw [repChars, dif_pos h]
      intro hmem
      rw [List.mem_singleton] at hmem
      exact hd (n % 10) (Nat.mod_lt _ (by norm_num)) hmem.symm
    · rw [repChars, dif_neg h]
      intro hmem
      rcases List.mem_append.mp hmem with h1 | h2
      · exact ih (n / 10)
          (Nat.div_lt_self (Nat.pos_of_ne_zero (fun hz => h (by simp [hz]))) (by norm_num)) h1
      · rw [List.mem_singleton] at h2
        exact hd (n % 10) (Nat.mod_lt _ (by norm_num)) h2.symm

/-- Splitting a character list at its first underscore is unambiguous. -/
theorem split_at_underscore :
    ∀ (ta tb ra rb : List Char), ('_' : Char) ∉ ta → ('_' : Char) ∉ tb →
      ta ++ '_' :: ra = tb ++ '_' :: rb →
      ta = tb ∧ ra = rb := by
  intro ta
  induction ta with
  | nil =>
    intro tb ra rb _ htb h
    cases tb with
    | nil => simpa using h
    | cons c tb' =>
      simp only [List.nil_append, List.cons_append, List.cons.injEq] at h
      simp only [List.mem_cons, not_or] at htb
      exact absurd h.1 htb.1
  | cons c ta' ih =>
    intro tb ra rb hta htb h
    simp only [List.mem_cons, not_or] at hta
    cases tb with
    | nil =>
      simp only [List.nil_append, List.cons_append, List.cons.injEq] at h
      exact absurd h.1.symm hta.1
    | cons d tb' =>
      simp only [List.mem_cons, not_or] at htb
      simp only [List.cons_append, List.cons.injEq] at h
      obtain ⟨rfl, h2⟩ := h
      have := ih tb' ra rb hta.2 htb.2 h2
      exact ⟨by rw [this.1], this.2⟩

/-- The character decomposition of a generated id. -/
theorem generatePlayerId_data (t : Nat) (r1 r2 : String) :
    (generatePlayerId t r1 r2).data
      = ['p', 'l', 'a', 'y', 'e', 'r']
          ++ '_' :: (repChars t ++ '_' :: (r1.data ++ '_' :: r2.data)) := by
  have hts : (toString t : String).data = repChars t := repr_data_eq_repChars t
  simp [generatePlayerId, String.data_append, hts]

/-- Injectivity of the id generator in its observed inputs, provided
the random components contain no underscore (base-36 digits never do). -/
theorem generatePlayerId_inj (t t' : Nat) (r1 r2 r1' r2' : String)
    (h1 : ('_' : Char) ∉ r1.data) (h1' : ('_' : Char) ∉ r1'.data)
    (h : generatePlayerId t r1 r2 = generatePlayerId t' r1' r2') :
    t = t' ∧ r1 = r1' ∧ r2 = r2' := by
  have hdata := congrArg String.data h
  rw [generatePlayerId_data, generatePlayerId_data] at hdata
  have h0 := List.append_cancel_left hdata
  have h0' : repChars t ++ '_' :: (r1.data ++ '_' :: r2.data)
      = repChars t' ++ '_' :: (r1'.data ++ '_' :: r2'.data) := by
    injection h0
  have hsplit1 := split_at_underscore _ _ _ _
    (repChars_no_underscore t) (repChars_no_underscore t') h0'
  have ht : t = t' := repChars_injective _ _ hsplit1.1
  have hsplit2 := split_at_underscore _ _ _ _ h1 h1' hsplit1.2
  exact ⟨ht, String.ext hsplit2.1, String.ext hsplit2.2⟩

/-! ### Client reconnection lemmas -/

/-- Over any sequence of closes (no successful reopen), at most
`max - attempts` reconnects are ever scheduled. -/
theorem runCloses_length_le (codes : List Nat) : ∀ s : GameWebSocket,
    ((runCloses s codes).2).length
      ≤ s.maxReconnectAttempts - s.reconnectAttempts := by
  induction codes with
  | nil => intro s; simp [runCloses]
  | cons c rest ih =>
    intro s
    by_cases hc : c = 1000
    · simpa [runCloses, onCloseHandler, hc] using ih s
    · by_cases hlt : s.reconnectAttempts < s.maxReconnectAttempts
      · have := ih { s with reconnectAttempts := s.reconnectAttempts + 1 }
        simp only [runCloses, onCloseHandler, attemptReconnect, hc, hlt,
          if_pos, if_neg, ite_true, ite_false, ne_eq, not_false_iff,
          Option.toList_some, List.length_append, List.length_cons,
          List.length_nil] at this ⊢
        omega
      · simpa [runCloses, onCloseHandler, attemptReconnect, hc, hlt] using ih s

/-! ### Claim theorems -/

/-- C10: a connection that never completed a `player_join` has no
assigned id; its `player_move`, `chat` and `player_update` messages
leave the registries, the batcher queues and the wire untouched, and
its close emits no `player_leave`. -/
theorem c10_unregistered_ignored (clients : List Nat) (st : ServerState)
    (q : Queues) (conn : Nat) (m : MoveMsg) (message : String)
    (u : UpdatePlayer) (now : Int) (freshId : String)
    (h : alGet st.assigned conn = none) :
    handleMessage clients st q conn (.player_move m) now freshId = ⟨st, q, []⟩
    ∧ handleMessage clients st q conn (.chat message) now freshId = ⟨st, q, []⟩
    ∧ handleMessage clients st q conn (.player_update u) now freshId = ⟨st, q, []⟩
    ∧ handleClose clients st q conn = ⟨st, q, []⟩ := by
  refine ⟨?_, ?_, ?_, ?_⟩ <;>
    simp [handleMessage, handleMove, handleChat, handleUpdate, handleClose, h]

/-- C10 witness: a chat from never-joined connection 5 is a no-op. -/
theorem c10_witness :
    handleMessage [0] initialState [] 5 (.chat "hi") 0 "X"
      = ⟨initialState, [], []⟩ :=
  (c10_unregistered_ignored [0] initialState [] 5
    ⟨none, none, none, none, none, none, none⟩ "hi"
    ⟨none, none, none, none, none⟩ 0 "X" rfl).2.1

/-- C9: the client transport reconnects only on a close whose code is
not 1000; each retry is scheduled `reconnectDelay * attempt` ms out
(base delay 1000 in `GameWebSocket.init`); once the cap is reached no
reconnect is scheduled; and from a fresh client at most 5 reconnects
are ever scheduled across any sequence of closes. -/
theorem c9_reconnect_policy :
    (∀ s : GameWebSocket, onCloseHandler s 1000 = (s, none))
    ∧ (∀ (s : GameWebSocket) (code : Nat), code ≠ 1000 →
        s.reconnectAttempts < s.maxReconnectAttempts →
        onCloseHandler s code =
          ({ s with reconnectAttempts := s.reconnectAttempts + 1 },
           some (s.reconnectDelay * (s.reconnectAttempts + 1))))
    ∧ (∀ (s : GameWebSocket) (code : Nat),
        s.maxReconnectAttempts ≤ s.reconnectAttempts →
        onCloseHandler s code = (s, none))
    ∧ (∀ codes : List Nat,
        ((runCloses GameWebSocket.init codes).2).length ≤ 5) := by
  refine ⟨fun s => by simp [onCloseHandler], ?_, ?_, ?_⟩
  · intro s code hc hlt
    simp [onCloseHandler, attemptReconnect, hc, hlt]
  · intro s code hle
    by_cases hc : code = 1000
    · simp [onCloseHandler, hc]
    · simp [onCloseHandler, attemptReconnect, hc, Nat.not_lt.mpr hle]
  · intro codes
    simpa [GameWebSocket.init] using runCloses_length_le codes GameWebSocket.init

/-- C9 witness: two abnormal closes from a fresh client schedule
reconnects after 1000 ms and then 2000 ms. -/
theorem c9_witness :
    (1006 : Nat) ≠ 1000
    ∧ GameWebSocket.init.reconnectAttempts < GameWebSocket.init.maxReconnectAttempts
    ∧ onCloseHandler GameWebSocket.init 1006 =
        ({ GameWebSocket.init with reconnectAttempts := 1 }, some 1000) :=
  ⟨by decide, by decide,
    c9_reconnect_policy.2.1 GameWebSocket.init 1006 (by decide) (by decide)⟩

/-- C2 (amended): a `player_move` claiming a NON-EMPTY id other than
the connection's own is dropped with no state change, no queueing and
no send.  (The empty string slips past the JS truthiness test
`msg.playerId && ...`, see the counterexample.) -/
theorem c2_mismatched_move_dropped (clients : List Nat) (st : ServerState)
    (q : Queues) (conn : Nat) (m : MoveMsg) (now : Int) (pid other : String)
    (ha : alGet st.assigned conn = some pid)
    (hclaim : m.playerId = some other)
    (hnonempty : other ≠ "") (hne : other ≠ pid) :
    handleMove clients st q conn m now = ⟨st, q, []⟩ := by
  cases hp : alGet st.players pid with
  | none => simp [handleMove, ha, hp]
  | some cur =>
    simp [handleMove, ha, hp, ownershipViolation, hclaim,
      bne_iff_ne, hnonempty, hne]

/-- C2 witness: a registered player claiming id `"Z"` (not its own
`"A"`) is dropped entirely. -/
theorem c2_witness :
    handleMove [0, 1] exSt []
      0 { c2_badMove with playerId := some "Z" } 100 = ⟨exSt, [], []⟩ :=
  c2_mismatched_move_dropped [0, 1] exSt [] 0
    { c2_badMove with playerId := some "Z" } 100 "A" "Z"
    rfl rfl (by decide) (by decide)

/-- C2 counterexample: a `player_move` whose `playerId` is present but
equal to `""` differs from the connection's id `"A"`, yet is NOT
dropped: the registry entry changes and a movement broadcast is
queued. -/
theorem c2_counterexample :
    alGet (handleMove [0, 1] exSt [] 0 c2_badMove 100).state.players "A"
      = some ⟨"A", "Alice", ⟨10, 10⟩, none, none, none⟩
    ∧ (handleMove [0, 1] exSt [] 0 c2_badMove 100).state ≠ exSt
    ∧ (handleMove [0, 1] exSt [] 0 c2_badMove 100).queues.length = 1 :=
  ⟨rfl, by decide, rfl⟩

/-- C3 (amended): an accepted `player_move` stores the coordinate-wise
clamp of the proposed absolute position (respectively of the previous
position plus the delta) into the CLOSED range
`[0, MAP_WIDTH] × [0, MAP_HEIGHT]` — `Math.min(MAP_WIDTH, ·)` makes
`MAP_WIDTH` itself attainable, so `{x:9999, y:9999}` stores
`(1536, 1024)`, not `(1535, 1023)`. -/
theorem c3_move_clamps (clients : List Nat) (st : ServerState) (q : Queues)
    (conn : Nat) (m : MoveMsg) (now : Int) (pid : String) (cur : PlayerData)
    (ha : alGet st.assigned conn = some pid)
    (hp : alGet st.players pid = some cur)
    (hown : ownershipViolation m.playerId pid = false)
    (hrate : UPDATE_RATE_LIMIT ≤ now - (alGet st.lastUpdateTime pid).getD 0) :
    (∀ p : Pos, m.dx = none → m.pos = some p →
      alGet (handleMove clients st q conn m now).state.players pid =
        some { cur with
                pos := ⟨clampX p.x, clampY p.y⟩
                direction := m.direction
                isMoving := m.isMoving })
    ∧ (∀ dx dy : Int, m.dx = some dx → m.dy = some dy →
      alGet (handleMove clients st q conn m now).state.players pid =
        some { cur with
                pos := ⟨clampX (cur.pos.x + dx), clampY (cur.pos.y + dy)⟩
                direction := m.direction
                isMoving := m.isMoving }) := by
  constructor
  · intro p hdx hpos
    simp only [handleMove, ha, hp, hown, Bool.false_eq_true, if_false,
      if_neg (by omega : ¬(now - (alGet st.lastUpdateTime pid).getD 0
        < UPDATE_RATE_LIMIT)), hdx, hpos]
    rw [alGet_alSet_self]
  · intro dx dy hdx hdy
    simp only [handleMove, ha, hp, hown, Bool.false_eq_true, if_false,
      if_neg (by omega : ¬(now - (alGet st.lastUpdateTime pid).getD 0
        < UPDATE_RATE_LIMIT)), hdx, hdy]
    rw [alGet_alSet_self]

/-- C3 witness: in `exSt`, connection 0 moves to `(9999, 9999)`; the
stored position is the clamp `(1536, 1024)`. -/
theorem c3_witness :
    alGet (handleMove [0] exSt [] 0 c3_move 100).state.players "A" =
      some ⟨"A", "Alice", ⟨1536, 1024⟩, some "front", some false, none⟩ :=
  (And.left (c3_move_clamps [0] exSt [] 0 c3_move 100 "A"
      ⟨"A", "Alice", ⟨768, 512⟩, some "front", some false, none⟩
      rfl rfl rfl (by decide))) ⟨9999, 9999⟩ rfl rfl

/-- C3 counterexample: the claim's concrete expectation `(1535, 1023)`
is not what the code stores for `{x:9999, y:9999}`: the clamp is
inclusive, giving `(1536, 1024)`. -/
theorem c3_counterexample :
    alGet (handleMove [0] exSt [] 0 c3_move 100).state.players "A" =
      some ⟨"A", "Alice", ⟨1536, 1024⟩, some "front", some false, none⟩
    ∧ (⟨1536, 1024⟩ : Pos) ≠ ⟨1535, 1023⟩ :=
  ⟨rfl, by decide⟩

/-- C8 (amended): ids handed out by successive `generatePlayerId`
calls are pairwise distinct PROVIDED no two calls observe identical
(timestamp, random-draw) inputs; the generator performs no collision
check, so identical draws yield identical ids (see counterexample).
The underscore-freedom hypothesis holds of every real draw, since
`Math.random().toString(36)` emits only `[0-9a-z]` characters. -/
theorem c8_ids_distinct (draws : List (Nat × String × String))
    (hne : draws.Pairwise (fun a b => a ≠ b))
    (hund : ∀ d ∈ draws, ('_' : Char) ∉ d.2.1.data) :
    (draws.map (fun d => generatePlayerId d.1 d.2.1 d.2.2)).Pairwise
      (fun a b => a ≠ b) := by
  rw [List.pairwise_map]
  refine hne.imp_of_mem ?_
  intro a b ha hb hab heq
  obtain ⟨ht, h1, h2⟩ :=
    generatePlayerId_inj _ _ _ _ _ _ (hund a ha) (hund b hb) heq
  apply hab
  obtain ⟨ta, ra1, ra2⟩ := a
  obtain ⟨tb, rb1, rb2⟩ := b
  simp_all

/-- C8 witness: two draws differing in timestamp give distinct ids. -/
theorem c8_witness :
    (([(1, "a", "b"), (2, "a", "b")] : List (Nat × String × String)).map
      (fun d => generatePlayerId d.1 d.2.1 d.2.2)).Pairwise
        (fun a b => a ≠ b) :=
  c8_ids_distinct [(1, "a", "b"), (2, "a", "b")] (by decide) (by decide)

/-- C8 counterexample: two joins observing the same millisecond and the
same `Math.random` outputs receive the SAME id — the handed-out ids are
not pairwise distinct for every join sequence. -/
theorem c8_counterexample :
    ¬ (([(0, "a", "b"), (0, "a", "b")] : List (Nat × String × String)).map
        (fun d => generatePlayerId d.1 d.2.1 d.2.2)).Pairwise
          (fun a b => a ≠ b) := by
  intro h
  exact (List.pairwise_cons.mp h).1 _ (List.mem_singleton.mpr rfl) rfl

/-- C4: a first `player_join` on a connection (fresh id unused so far)
performs exactly three sends — (a) `player_id_assigned` with the
canonical state to the joiner, (b) a `player_join` broadcast with the
same state to every OTHER open connection, and (c) a `players_sync` to
the joiner alone, listing exactly the previously-registered players
(the joiner excluded) — while registering the player under the fresh
id. -/
theorem c4_join_three_sends (clients : List Nat) (st : ServerState)
    (q : Queues) (conn : Nat) (j : JoinPlayer) (now : Int) (freshId : String)
    (hnew : alGet st.assigned conn = none)
    (hkey : alGet st.players freshId = none)
    (hfresh : ∀ kv ∈ st.players, kv.2.id ≠ freshId) :
    handleMessage clients st q conn (.player_join j) now freshId =
      ⟨⟨alSet st.players freshId (joinPlayerData j freshId),
        alSet st.assigned conn freshId,
        st.lastUpdateTime⟩,
       q,
       [(conn, .player_id_assigned freshId (joinPlayerData j freshId))]
         ++ (clients.filter (fun c => c ≠ conn)).map
              (fun c => (c, .player_join (joinPlayerData j freshId)))
         ++ [(conn, .players_sync (st.players.map (fun kv => kv.2)))]⟩ := by
  have hothers :
      (((alSet st.players freshId (joinPlayerData j freshId)).map
          (fun kv => kv.2)).filter (fun p => p.id ≠ freshId))
        = st.players.map (fun kv => kv.2) := by
    rw [alSet_append_of_not_mem _ _ _ hkey, List.map_append, List.filter_append]
    simp only [List.map_cons, List.map_nil]
    have h2 : ([joinPlayerData j freshId].filter
        (fun p => p.id ≠ freshId)) = [] := by
      simp [joinPlayerData]
    rw [h2, List.append_nil]
    apply List.filter_eq_self.mpr
    intro p hp
    obtain ⟨kv, hkv, rfl⟩ := List.mem_map.mp hp
    simpa using hfresh kv hkv
  simp [handleMessage, handleJoin, hnew, broadcast, isMovementMsg]
  simpa using hothers

/-- C4 witness: the spec's scenario 1 — client A (connection 0, id
`"A"`) is already in; client B joins on connection 1 and its
`players_sync` contains exactly one entry, A's state. -/
theorem c4_witness :
    handleMessage [0, 1] exSt [] 1
        (.player_join ⟨some "Bob", none, none, none, none⟩) 5 "B" =
      ⟨⟨alSet exSt.players "B"
          (joinPlayerData ⟨some "Bob", none, none, none, none⟩ "B"),
        alSet exSt.assigned 1 "B", exSt.lastUpdateTime⟩,
       [],
       [(1, .player_id_assigned "B"
           (joinPlayerData ⟨some "Bob", none, none, none, none⟩ "B")),
        (0, .player_join
           (joinPlayerData ⟨some "Bob", none, none, none, none⟩ "B")),
        (1, .players_sync
           [⟨"A", "Alice", ⟨768, 512⟩, some "front", some false, none⟩])]⟩ :=
  c4_join_three_sends [0, 1] exSt [] 1
    ⟨some "Bob", none, none, none, none⟩ 5 "B" rfl rfl (by decide)

/-- C5 (amended): a second `player_join` on an already-identified
connection does NOT mint a new id — the assignment map is untouched and
the registry entry keeps id `A` — but the join is otherwise
re-processed: the entry is rebuilt from the new payload and the three
join sends (`player_id_assigned`, `player_join` broadcast,
`players_sync`) are all emitted again. -/
theorem c5_rejoin_keeps_id (clients : List Nat) (st : ServerState)
    (q : Queues) (conn : Nat) (j : JoinPlayer) (now : Int)
    (freshId A : String)
    (ha : alGet st.assigned conn = some A) :
    (handleMessage clients st q conn (.player_join j) now freshId).state.assigned
        = st.assigned
    ∧ alGet (handleMessage clients st q conn (.player_join j) now
        freshId).state.players A = some (joinPlayerData j A)
    ∧ (joinPlayerData j A).id = A
    ∧ (handleMessage clients st q conn (.player_join j) now freshId).sends =
        [(conn, .player_id_assigned A (joinPlayerData j A))]
          ++ (clients.filter (fun c => c ≠ conn)).map
               (fun c => (c, .player_join (joinPlayerData j A)))
          ++ [(conn, .players_sync
                (((alSet st.players A (joinPlayerData j A)).map
                    (fun kv => kv.2)).filter (fun p => p.id ≠ A)))] := by
  refine ⟨?_, ?_, rfl, ?_⟩ <;>
    simp [handleMessage, handleJoin, ha, broadcast, isMovementMsg,
      alGet_alSet_self]

/-- C5 counterexample: connection 0 (id `"A"`, name `"Alice"`) sends a
second `player_join` with name `"Bob"`: the registry entry changes and
two messages are sent to the joiner — the repeated join is NOT a
no-op. -/
theorem c5_counterexample :
    alGet (handleMessage [0] exSt [] 0 c5_secondJoin 10 "ZZZ").state.players "A"
        = some ⟨"A", "Bob", ⟨768, 512⟩, some "front", some false, none⟩
    ∧ (handleMessage [0] exSt [] 0 c5_secondJoin 10 "ZZZ").state.players
        ≠ exSt.players
    ∧ (handleMessage [0] exSt [] 0 c5_secondJoin 10 "ZZZ").sends.length = 2 :=
  ⟨rfl, by decide, rfl⟩

/-- C5 witness: instantiating the amended re-join theorem at the
concrete second join of connection 0. -/
theorem c5_witness :
    (handleMessage [0] exSt [] 0 c5_secondJoin 10 "ZZZ").state.assigned
        = exSt.assigned
    ∧ alGet (handleMessage [0] exSt [] 0 c5_secondJoin 10
        "ZZZ").state.players "A"
        = some (joinPlayerData ⟨some "Bob", none, none, none, none⟩ "A")
    ∧ (joinPlayerData ⟨some "Bob", none, none, none, none⟩ "A").id = "A"
    ∧ (handleMessage [0] exSt [] 0 c5_secondJoin 10 "ZZZ").sends =
        [(0, .player_id_assigned "A"
            (joinPlayerData ⟨some "Bob", none, none, none, none⟩ "A"))]
          ++ (([0].filter (fun c => c ≠ 0)).map
               (fun c => (c, ServerMsg.player_join
                 (joinPlayerData ⟨some "Bob", none, none, none, none⟩ "A"))))
          ++ [(0, .players_sync
                (((alSet exSt.players "A"
                    (joinPlayerData ⟨some "Bob", none, none, none, none⟩ "A")).map
                      (fun kv => kv.2)).filter (fun p => p.id ≠ "A")))] :=
  c5_rejoin_keeps_id [0] exSt [] 0
    ⟨some "Bob", none, none, none, none⟩ 10 "ZZZ" "A" rfl

/-- Enqueueing a movement message appends it to the pending queue of
every open connection except the sender, leaving all other queues
unchanged. -/
theorem enqueue_foldl_get (m : ServerMsg) (excl : Nat) :
    ∀ (clients : List Nat) (q : Queues) (c : Nat), clients.Nodup →
      alGet (clients.foldl
        (fun acc cc =>
          if cc ≠ excl then alSet acc cc ((alGet acc cc).getD [] ++ [m])
          else acc) q) c
        = if c ∈ clients ∧ c ≠ excl then some ((alGet q c).getD [] ++ [m])
          else alGet q c := by
  intro clients
  induction clients with
  | nil => intro q c _; simp
  | cons a rest ih =>
    intro q c hnd
    obtain ⟨hna, hnd'⟩ := List.nodup_cons.mp hnd
    rw [List.foldl_cons, ih _ c hnd']
    by_cases hca : c = a
    · subst hca
      rw [if_neg (fun hc => hna hc.1)]
      by_cases hce : c = excl
      · rw [if_neg (not_not.mpr hce), if_neg (fun hc => hc.2 hce)]
      · rw [if_pos hce, alGet_alSet_self,
          if_pos ⟨List.mem_cons_self c rest, hce⟩]
    · have hq1 : alGet
          (if a ≠ excl then alSet q a ((alGet q a).getD [] ++ [m]) else q) c
          = alGet q c := by
        by_cases hae : a ≠ excl
        · rw [if_pos hae, alGet_alSet_ne _ _ _ _ (Ne.symm hca)]
        · rw [if_neg hae]
      rw [hq1]
      by_cases hmem : c ∈ rest ∧ c ≠ excl
      · rw [if_pos hmem, if_pos ⟨List.mem_cons_of_mem a hmem.1, hmem.2⟩]
      · rw [if_neg hmem,
          if_neg (fun hc => hmem ⟨(List.mem_cons.mp hc.1).resolve_left hca, hc.2⟩)]

/-- A flush never drops an already-emitted send. -/
theorem mem_flushEntry_of_mem (clients : List Nat) (cu : Nat × List ServerMsg)
    (acc : List (Nat × ServerMsg)) (x : Nat × ServerMsg) (hx : x ∈ acc) :
    x ∈ flushEntry clients cu acc := by
  by_cases h : cu.1 ∈ clients
  · rw [flushEntry, if_pos h]
    rcases cu.2 with _ | ⟨u, _ | ⟨v, us⟩⟩ <;> simp [hx]
  · rwa [flushEntry, if_neg h]

/-- C7: the broadcast batcher — (i) a `player_move` broadcast performs
no immediate write and appends the message to the pending queue of each
open connection other than the sender (preserving arrival order),
leaving every other queue untouched; (ii) a tick flushes a
single-element queue as the plain message; (iii) a queue holding
several messages is flushed as one `batch` envelope carrying exactly
the ordered pending list; (iv) every non-movement message bypasses the
batcher: it is written immediately, one write per open connection
except the sender, and the queues are unchanged. -/
theorem c7_batcher :
    (∀ (clients : List Nat) (excl : Nat) (mv : ServerMsg) (q : Queues)
        (c : Nat), isMovementMsg mv = true → clients.Nodup →
        (broadcast clients excl mv q).2 = []
        ∧ (c ∈ clients → c ≠ excl →
            alGet (broadcast clients excl mv q).1 c
              = some ((alGet q c).getD [] ++ [mv]))
        ∧ (c ∉ clients ∨ c = excl →
            alGet (broadcast clients excl mv q).1 c = alGet q c))
    ∧ (∀ (clients : List Nat) (q : Queues) (c : Nat) (u : ServerMsg),
        (c, [u]) ∈ q → c ∈ clients → (c, u) ∈ (flushTick clients q).1)
    ∧ (∀ (clients : List Nat) (q : Queues) (c : Nat) (us : List ServerMsg),
        (c, us) ∈ q → 2 ≤ us.length → c ∈ clients →
        (c, ServerMsg.batch us) ∈ (flushTick clients q).1)
    ∧ (∀ (clients : List Nat) (excl : Nat) (msg : ServerMsg) (q : Queues),
        isMovementMsg msg = false →
        broadcast clients excl msg q
          = (q, (clients.filter (fun c => c ≠ excl)).map (fun c => (c, msg)))) := by
  refine ⟨?_, ?_, ?_, ?_⟩
  · intro clients excl mv q c hmv hnd
    refine ⟨by simp [broadcast, hmv], ?_, ?_⟩
    · intro hcin hcne
      simp only [broadcast, hmv, if_pos]
      rw [enqueue_foldl_get mv excl clients q c hnd, if_pos ⟨hcin, hcne⟩]
    · intro hor
      simp only [broadcast, hmv, if_pos]
      rw [enqueue_foldl_get mv excl clients q c hnd, if_neg]
      rintro ⟨hcin, hcne⟩
      rcases hor with h | h
      · exact h hcin
      · exact hcne h
  · intro clients q c u hmem hcl
    induction q with
    | nil => cases hmem
    | cons cu rest ih =>
      show (c, u) ∈ flushEntry clients cu (rest.foldr (flushEntry clients) [])
      rcases List.mem_cons.mp hmem with h | h
      · rw [← h, flushEntry, if_pos hcl]
        exact List.mem_cons_self _ _
      · exact mem_flushEntry_of_mem _ _ _ _ (ih h)
  · intro clients q c us hmem hlen hcl
    induction q with
    | nil => cases hmem
    | cons cu rest ih =>
      show (c, ServerMsg.batch us) ∈
        flushEntry clients cu (rest.foldr (flushEntry clients) [])
      rcases List.mem_cons.mp hmem with h | h
      · rw [← h, flushEntry, if_pos hcl]
        rcases us with _ | ⟨u, _ | ⟨v, tail⟩⟩
        · simp at hlen
        · simp at hlen
        · exact List.mem_cons_self _ _
      · exact mem_flushEntry_of_mem _ _ _ _ (ih h)
  · intro clients excl msg q hmsg
    simp [broadcast, hmsg]

/-- C7 witness: one pending move flushes plain; two flush as a batch
in arrival order; a `chat` bypasses the batcher. -/
theorem c7_witness :
    (1, ServerMsg.player_move "A" ⟨1, 1⟩ none none none 0)
      ∈ (flushTick [1] [(1, [ServerMsg.player_move "A" ⟨1, 1⟩ none none none 0])]).1
    ∧ (1, ServerMsg.batch [ServerMsg.player_move "A" ⟨1, 1⟩ none none none 0,
        ServerMsg.player_move "A" ⟨2, 2⟩ none none none 5])
      ∈ (flushTick [1] [(1, [ServerMsg.player_move "A" ⟨1, 1⟩ none none none 0,
          ServerMsg.player_move "A" ⟨2, 2⟩ none none none 5])]).1
    ∧ broadcast [0, 1] 0 (ServerMsg.chat "A" "Alice" "hi") []
        = ([], [(1, ServerMsg.chat "A" "Alice" "hi")]) :=
  ⟨c7_batcher.2.1 [1] _ 1 _ (List.mem_singleton.mpr rfl)
      (List.mem_singleton.mpr rfl),
   c7_batcher.2.2.1 [1] _ 1 _ (List.mem_singleton.mpr rfl) (by decide)
      (List.mem_singleton.mpr rfl),
   c7_batcher.2.2.2 [0, 1] 0 (ServerMsg.chat "A" "Alice" "hi") [] rfl⟩

/-! ### The position invariant (C1) -/

theorem alGet_alSet_cases {κ α : Type} [DecidableEq κ]
    (m : List (κ × α)) (k k' : κ) (v pd : α)
    (h : alGet (alSet m k v) k' = some pd) :
    (k' = k ∧ pd = v) ∨ alGet m k' = some pd := by
  by_cases hk : k' = k
  · rw [hk, alGet_alSet_self] at h
    exact Or.inl ⟨hk, (Option.some.inj h).symm⟩
  · rw [alGet_alSet_ne _ _ _ _ (fun he => hk he.symm)] at h
    exact Or.inr h

theorem alGet_alErase_self {κ α : Type} [DecidableEq κ]
    (m : List (κ × α)) (k : κ) : alGet (alErase m k) k = none := by
  induction m with
  | nil => rfl
  | cons kv rest ih =>
    by_cases hk : kv.1 = k
    · simpa [alErase, alGet, hk] using ih
    · simpa [alErase, alGet, hk] using ih

theorem alGet_alErase_ne {κ α : Type} [DecidableEq κ]
    (m : List (κ × α)) (k k' : κ) (hkk : k' ≠ k) :
    alGet (alErase m k) k' = alGet m k' := by
  induction m with
  | nil => rfl
  | cons kv rest ih =>
    by_cases hk : kv.1 = k
    · have hne : ¬ kv.1 = k' := fun hc => hkk (hc.symm.trans hk)
      rw [show alErase (kv :: rest) k = alErase rest k from by
        simp [alErase, List.filter_cons, hk]]
      rw [ih]
      rw [alGet, if_neg hne]
    · rw [show alErase (kv :: rest) k = kv :: alErase rest k from by
        simp [alErase, List.filter_cons, hk]]
      by_cases hk' : kv.1 = k'
      · rw [alGet, if_pos hk', alGet, if_pos hk']
      · rw [alGet, if_neg hk', alGet, if_neg hk', ih]

theorem alGet_of_alErase {κ α : Type} [DecidableEq κ]
    (m : List (κ × α)) (k k' : κ) (v : α)
    (h : alGet (alErase m k) k' = some v) : alGet m k' = some v := by
  by_cases hkk : k' = k
  · subst hkk
    rw [alGet_alErase_self] at h
    cases h
  · rw [alGet_alErase_ne _ _ _ hkk] at h
    exact h

theorem inBoundsClosed_clamp (a b : Int) :
    inBoundsClosed ⟨clampX a, clampY b⟩ := by
  refine ⟨le_max_left 0 _, max_le (by decide) (min_le_left _ _),
    le_max_left 0 _, max_le (by decide) (min_le_left _ _)⟩

theorem handleChat_state (clients : List Nat) (st : ServerState) (q : Queues)
    (conn : Nat) (s : String) : (handleChat clients st q conn s).state = st := by
  cases ha : alGet st.assigned conn with
  | none => simp [handleChat, ha]
  | some pid => cases hp : alGet st.players pid <;> simp [handleChat, ha, hp]

theorem stateInBounds_handleJoin (clients : List Nat) (st : ServerState)
    (q : Queues) (conn : Nat) (j : JoinPlayer) (freshId : String)
    (hj : (match j.pos with
           | some p => decide (inBoundsClosed p)
           | none => true) = true)
    (hst : stateInBounds st) :
    stateInBounds (handleJoin clients st q conn j freshId).state := by
  intro pid pd hpd
  simp only [handleJoin] at hpd
  rcases alGet_alSet_cases _ _ _ _ _ hpd with ⟨_, rfl⟩ | hold
  · show inBoundsClosed (joinPlayerData j _).pos
    simp only [joinPlayerData]
    cases hp : j.pos with
    | some p =>
      rw [hp] at hj
      simpa [hp] using of_decide_eq_true hj
    | none =>
      simp only [hp, Option.getD_none]
      exact (by decide : inBoundsClosed ⟨MAP_WIDTH / 2, MAP_HEIGHT / 2⟩)
  · exact hst _ _ hold

theorem stateInBounds_handleMove (clients : List Nat) (st : ServerState)
    (q : Queues) (conn : Nat) (m : MoveMsg) (now : Int)
    (hst : stateInBounds st) :
    stateInBounds (handleMove clients st q conn m now).state := by
  cases ha : alGet st.assigned conn with
  | none => simpa [handleMove, ha] using hst
  | some pid =>
    cases hp : alGet st.players pid with
    | none => simpa [handleMove, ha, hp] using hst
    | some cur =>
      by_cases hown : ownershipViolation m.playerId pid
      · simpa [handleMove, ha, hp, hown] using hst
      · by_cases hrate : now - (alGet st.lastUpdateTime pid).getD 0
            < UPDATE_RATE_LIMIT
        · simpa [handleMove, ha, hp, hown, hrate] using hst
        · cases hdx : m.dx with
          | some dx =>
            cases hdy : m.dy with
            | some dy =>
              intro pid' pd' hpd'
              simp only [handleMove, ha, hp, hown, Bool.false_eq_true,
                if_false, if_neg hrate, hdx, hdy] at hpd'
              rcases alGet_alSet_cases _ _ _ _ _ hpd' with ⟨_, rfl⟩ | hold
              · exact inBoundsClosed_clamp _ _
              · exact hst _ _ hold
            | none =>
              cases hpos : m.pos with
              | some p0 =>
                intro pid' pd' hpd'
                simp only [handleMove, ha, hp, hown, Bool.false_eq_true,
                  if_false, if_neg hrate, hdx, hdy, hpos] at hpd'
                rcases alGet_alSet_cases _ _ _ _ _ hpd' with ⟨_, rfl⟩ | hold
                · exact inBoundsClosed_clamp _ _
                · exact hst _ _ hold
              | none =>
                intro pid' pd' hpd'
                simp only [handleMove, ha, hp, hown, Bool.false_eq_true,
                  if_false, if_neg hrate, hdx, hdy, hpos] at hpd'
                exact hst _ _ hpd'
          | none =>
            cases hpos : m.pos with
            | some p0 =>
              intro pid' pd' hpd'
              simp only [handleMove, ha, hp, hown, Bool.false_eq_true,
                if_false, if_neg hrate, hdx, hpos] at hpd'
              rcases alGet_alSet_cases _ _ _ _ _ hpd' with ⟨_, rfl⟩ | hold
              · exact inBoundsClosed_clamp _ _
              · exact hst _ _ hold
            | none =>
              intro pid' pd' hpd'
              simp only [handleMove, ha, hp, hown, Bool.false_eq_true,
                if_false, if_neg hrate, hdx, hpos] at hpd'
              exact hst _ _ hpd'

theorem stateInBounds_handleUpdate (clients : List Nat) (st : ServerState)
    (q : Queues) (conn : Nat) (u : UpdatePlayer) (hst : stateInBounds st) :
    stateInBounds (handleUpdate clients st q conn u).state := by
  cases ha : alGet st.assigned conn with
  | none => simpa [handleUpdate, ha] using hst
  | some pid =>
    cases hp : alGet st.players pid with
    | none => simpa [handleUpdate, ha, hp] using hst
    | some cur =>
      by_cases hown : ownershipViolation u.id pid
      · simpa [handleUpdate, ha, hp, hown] using hst
      · intro pid' pd' hpd'
        simp only [handleUpdate, ha, hp, hown, Bool.false_eq_true,
          if_false] at hpd'
        rcases alGet_alSet_cases _ _ _ _ _ hpd' with ⟨_, rfl⟩ | hold
        · exact hst pid cur hp
        · exact hst _ _ hold

theorem stateInBounds_handleClose (clients : List Nat) (st : ServerState)
    (q : Queues) (conn : Nat) (hst : stateInBounds st) :
    stateInBounds (handleClose clients st q conn).state := by
  cases ha : alGet st.assigned conn with
  | none => simpa [handleClose, ha] using hst
  | some pid =>
    intro pid' pd' hpd'
    simp only [handleClose, ha] at hpd'
    exact hst _ _ (alGet_of_alErase _ _ _ _ hpd')

theorem stateInBounds_step (st : ServerState) (e : Event)
    (hok : joinPosOk e = true) (hst : stateInBounds st) :
    stateInBounds (stepState st e) := by
  cases e with
  | emsg conn msg now fid clients =>
    cases msg with
    | player_join j => exact stateInBounds_handleJoin clients st [] conn j fid hok hst
    | player_move m => exact stateInBounds_handleMove clients st [] conn m now hst
    | chat s =>
      show stateInBounds (handleChat clients st [] conn s).state
      rw [handleChat_state]
      exact hst
    | player_update u => exact stateInBounds_handleUpdate clients st [] conn u hst
  | eclose conn now clients => exact stateInBounds_handleClose clients st [] conn hst

theorem stateInBounds_run : ∀ (trace : List Event) (st : ServerState),
    (∀ e ∈ trace, joinPosOk e = true) → stateInBounds st →
    stateInBounds (runState st trace) := by
  intro trace
  induction trace with
  | nil => exact fun st _ hst => hst
  | cons e rest ih =>
    intro st hok hst
    exact ih (stepState st e)
      (fun e' he' => hok e' (List.mem_cons_of_mem _ he'))
      (stateInBounds_step st e (hok e (List.mem_cons_self _ _)) hst)

/-- C1 (amended): provided every join request proposes either no
position or one inside the CLOSED bounds, every position stored in the
registry over any event sequence lies in
`[0, MAP_WIDTH] × [0, MAP_HEIGHT]`.  Two deviations from the claim as
stated: a join-proposed position is stored UNCLAMPED (so adversarial
joins break the invariant — see the counterexample), and the clamp used
for moves is inclusive of `MAP_WIDTH` / `MAP_HEIGHT`, so the half-open
bound `[0, mapWidth)` is not maintained either. -/
theorem c1_positions_bounded (trace : List Event)
    (hjoin : ∀ e ∈ trace, joinPosOk e = true) :
    ∀ pid pd, alGet (runState initialState trace).players pid = some pd →
      inBoundsClosed pd.pos :=
  stateInBounds_run trace initialState hjoin (fun _ _ h => nomatch h)

/-- C1 witness: a join (no proposed position) followed by a huge move
leaves the stored position `(1536, 1024)` inside the closed bounds. -/
theorem c1_witness :
    alGet (runState initialState c1_goodTrace).players "A"
      = some ⟨"A", "Alice", ⟨1536, 1024⟩, some "front", some false, none⟩
    ∧ inBoundsClosed
        (⟨"A", "Alice", ⟨1536, 1024⟩, some "front", some false, none⟩
          : PlayerData).pos :=
  ⟨rfl, c1_positions_bounded c1_goodTrace (by decide) "A" _ rfl⟩

/-- C1 counterexample: a single `player_join` proposing `(9999, 9999)`
stores that position verbatim — it violates both the spec's half-open
bound and the closed bound, so the claimed invariant is false. -/
theorem c1_counterexample :
    alGet (runState initialState c1_badTrace).players "A"
      = some ⟨"A", "Player", ⟨9999, 9999⟩, some "front", some false, none⟩
    ∧ ¬ inBoundsSpec ⟨9999, 9999⟩
    ∧ ¬ inBoundsClosed ⟨9999, 9999⟩ :=
  ⟨rfl, by decide, by decide⟩

/-! ### The rate limiter (C6) -/

/-- A `player_move` either leaves `lastUpdateTime p` alone or stamps it
with the current time. -/
theorem handleMove_lastUpdate (clients : List Nat) (st : ServerState)
    (q : Queues) (conn : Nat) (m : MoveMsg) (now : Int) (p : String) :
    alGet (handleMove clients st q conn m now).state.lastUpdateTime p
      = alGet st.lastUpdateTime p
    ∨ alGet (handleMove clients st q conn m now).state.lastUpdateTime p
      = some now := by
  cases ha : alGet st.assigned conn with
  | none => left; simp [handleMove, ha]
  | some pid =>
    cases hp : alGet st.players pid with
    | none => left; simp [handleMove, ha, hp]
    | some cur =>
      by_cases hown : ownershipViolation m.playerId pid
      · left; simp [handleMove, ha, hp, hown]
      · by_cases hrate : now - (alGet st.lastUpdateTime pid).getD 0
            < UPDATE_RATE_LIMIT
        · left; simp [handleMove, ha, hp, hown, hrate]
        · by_cases hpp : p = pid
          · right
            subst hpp
            cases hdx : m.dx <;> cases hdy : m.dy <;> cases hpos : m.pos <;>
              simp [handleMove, ha, hp, hown, hrate, hdx, hdy, hpos,
                alGet_alSet_self]
          · left
            cases hdx : m.dx <;> cases hdy : m.dy <;> cases hpos : m.pos <;>
              simp [handleMove, ha, hp, hown, hrate, hdx, hdy, hpos,
                alGet_alSet_ne _ _ _ _ (fun he => hpp he.symm)]

/-- Any single event either preserves `lastUpdateTime p` or sets it to
the event's own time (closes and joins never clear it). -/
theorem stepState_lastUpdate (st : ServerState) (e : Event) (p : String) :
    alGet (stepState st e).lastUpdateTime p = alGet st.lastUpdateTime p
    ∨ alGet (stepState st e).lastUpdateTime p = some e.time := by
  cases e with
  | eclose conn now clients =>
    left
    cases ha : alGet st.assigned conn <;> simp [stepState, handleClose, ha]
  | emsg conn msg now fid clients =>
    cases msg with
    | player_join j => left; simp [stepState, handleMessage, handleJoin]
    | chat s =>
      left
      show alGet (handleChat clients st [] conn s).state.lastUpdateTime p = _
      rw [handleChat_state]
    | player_update u =>
      left
      cases ha : alGet st.assigned conn with
      | none => simp [stepState, handleMessage, handleUpdate, ha]
      | some pid =>
        cases hp : alGet st.players pid with
        | none => simp [stepState, handleMessage, handleUpdate, ha, hp]
        | some cur =>
          by_cases hown : ownershipViolation u.id pid <;>
            simp [stepState, handleMessage, handleUpdate, ha, hp, hown]
    | player_move m => exact handleMove_lastUpdate clients st [] conn m now p

/-- Once `lastUpdateTime p` carries a stamp at least `b`, it keeps a
stamp at least `b` through any suffix whose event times are all at
least `b`. -/
theorem run_lastUpdate_lower (p : String) (b : Int) :
    ∀ (l : List Event) (st : ServerState),
      (∀ e ∈ l, b ≤ e.time) →
      (∃ w, alGet st.lastUpdateTime p = some w ∧ b ≤ w) →
      ∃ w, alGet (runState st l).lastUpdateTime p = some w ∧ b ≤ w := by
  intro l
  induction l with
  | nil => exact fun st _ h => h
  | cons e rest ih =>
    intro st hall hex
    refine ih (stepState st e)
      (fun e' he' => hall e' (List.mem_cons_of_mem _ he')) ?_
    rcases stepState_lastUpdate st e p with h | h
    · obtain ⟨w, hw, hb⟩ := hex
      exact ⟨w, h.trans hw, hb⟩
    · exact ⟨e.time, h, hall e (List.mem_cons_self _ _)⟩

/-- An applied move stamps `lastUpdateTime p` with its arrival time. -/
theorem moveAppliedBy_sets_time (clients : List Nat) (st : ServerState)
    (q : Queues) (conn : Nat) (m : MoveMsg) (now : Int) (p : String)
    (h : moveAppliedBy st conn m now p = true) :
    alGet (handleMove clients st q conn m now).state.lastUpdateTime p
      = some now := by
  simp only [moveAppliedBy, Bool.and_eq_true, beq_iff_eq,
    Bool.not_eq_true', decide_eq_true_eq, Bool.or_eq_true,
    Option.isSome_iff_exists] at h
  obtain ⟨⟨⟨⟨ha, cur, hp⟩, hown⟩, hrate⟩, hform⟩ := h
  have hnrate : ¬ (now - (alGet st.lastUpdateTime p).getD 0
      < UPDATE_RATE_LIMIT) := by omega
  cases hdx : m.dx with
  | some dx =>
    cases hdy : m.dy with
    | some dy =>
      simp [handleMove, ha, hp, hown, hnrate, hdx, hdy, alGet_alSet_self]
    | none =>
      rcases hform with ⟨⟨a1, hdx'⟩, a2, hdy'⟩ | ⟨p0, hpos⟩
      · rw [hdy] at hdy'; cases hdy'
      · simp [handleMove, ha, hp, hown, hnrate, hdx, hdy, hpos,
          alGet_alSet_self]
  | none =>
    rcases hform with ⟨⟨a1, hdx'⟩, a2, hdy'⟩ | ⟨p0, hpos⟩
    · rw [hdx] at hdx'; cases hdx'
    · cases hdy : m.dy <;>
        simp [handleMove, ha, hp, hown, hnrate, hdx, hdy, hpos,
          alGet_alSet_self]

/-- C6: (i) a `player_move` arriving within `UPDATE_RATE_LIMIT` (16 ms)
of the rate stamp is DISCARDED outright — registries, queues and wire
all unchanged, nothing queued for later; (ii) along any trace whose
event times are nondecreasing, two moves applied for the same player
are at least 16 ms apart, so the registry reflects at most one applied
move per 16 ms window per player. -/
theorem c6_rate_limit :
    (∀ (clients : List Nat) (st : ServerState) (q : Queues) (conn : Nat)
        (m : MoveMsg) (now : Int) (pid : String) (cur : PlayerData),
        alGet st.assigned conn = some pid →
        alGet st.players pid = some cur →
        ownershipViolation m.playerId pid = false →
        now - (alGet st.lastUpdateTime pid).getD 0 < UPDATE_RATE_LIMIT →
        handleMove clients st q conn m now = ⟨st, q, []⟩)
    ∧ (∀ (pre mid post : List Event) (ci cj : List Nat) (conni connj : Nat)
          (mi mj : MoveMsg) (ti tj : Int) (fi fj : String) (p : String),
        List.Pairwise (fun a b => Event.time a ≤ Event.time b)
          (pre ++ Event.emsg conni (.player_move mi) ti fi ci ::
            (mid ++ Event.emsg connj (.player_move mj) tj fj cj :: post)) →
        moveAppliedBy (runState initialState pre) conni mi ti p = true →
        moveAppliedBy (runState initialState
            (pre ++ Event.emsg conni (.player_move mi) ti fi ci :: mid))
          connj mj tj p = true →
        ti + UPDATE_RATE_LIMIT ≤ tj) := by
  constructor
  · intro clients st q conn m now pid cur ha hp hown hrate
    simp [handleMove, ha, hp, hown, hrate]
  · intro pre mid post ci cj conni connj mi mj ti tj fi fj p
      hsorted hi hj
    have hpw := (List.pairwise_append.mp hsorted).2.1
    have hmidge : ∀ e ∈ mid, ti ≤ e.time := fun e he =>
      (List.pairwise_cons.mp hpw).1 e
        (List.mem_append.mpr (Or.inl he))
    have hset : alGet (stepState (runState initialState pre)
        (Event.emsg conni (.player_move mi) ti fi ci)).lastUpdateTime p
        = some ti :=
      moveAppliedBy_sets_time ci (runState initialState pre) [] conni mi ti p hi
    obtain ⟨w, hw, hle⟩ :=
      run_lastUpdate_lower p ti mid _ hmidge ⟨ti, hset, le_refl ti⟩
    have hreassoc : runState initialState
        (pre ++ Event.emsg conni (.player_move mi) ti fi ci :: mid)
        = runState (stepState (runState initialState pre)
            (Event.emsg conni (.player_move mi) ti fi ci)) mid := by
      rw [runState, List.foldl_append]
      rfl
    rw [hreassoc] at hj
    simp only [moveAppliedBy, Bool.and_eq_true, decide_eq_true_eq] at hj
    have hrate := hj.1.2
    rw [hw] at hrate
    simp only [Option.getD_some] at hrate
    omega

/-- C6 witness: after a join, moves applied at t = 100 and t = 116 for
the same player are exactly one 16 ms window apart. -/
theorem c6_witness : (100 : Int) + UPDATE_RATE_LIMIT ≤ 116 :=
  c6_rate_limit.2 [Event.emsg 0 exampleJoin 0 "A" [0]] [] [] [0] [0] 0 0
    c3_move c3_move 100 116 "" "" "A" (by decide) (by decide) (by decide)

end Gophertown
